import Mathlib

/-!
Shallow embedding of `src/main.py`: a converter from a line-oriented,
custom-delimited text file into a single-sheet spreadsheet.

Python strings are modelled as `List Char` (`PyStr`); Python `None`-able
headers as `Option`; the openpyxl worksheet as a rectangular grid of `Cell`
values; Python `float` values produced by numeric coercion as `Rat`
(coercion in the source only parses decimal literals, compares for
equality, and tests integrality, all of which `Rat` models exactly on the
decimal-literal subset the program feeds it).
-/

namespace Tables

/-- Python `str`, modelled as its character list. -/
abbrev PyStr := List Char

/-- `s.replace(old, new)` for single characters (Python `str.replace` with
one-character arguments is a character-wise substitution). -/
def pyReplace (old new : Char) (s : PyStr) : PyStr :=
  s.map fun c => if c = old then new else c

/-- `s.strip()`: drop whitespace from both ends (ASCII whitespace suffices
for this program's inputs). -/
def pyStrip (s : PyStr) : PyStr :=
  ((s.dropWhile Char.isWhitespace).reverse.dropWhile Char.isWhitespace).reverse

/-- `s.split(c)` with a one-character separator and no maxsplit:
`"".split(c) = [""]`, `"a&b".split('&') = ["a","b"]`. -/
def pySplitChar (c : Char) : PyStr → List PyStr
  | [] => [[]]
  | x :: xs =>
    if x = c then
      [] :: pySplitChar c xs
    else
      match pySplitChar c xs with
      | [] => [[x]]
      | y :: ys => (x :: y) :: ys

/-- One parsed table: `{"name": ..., "header": ..., "rows": [...]}` from
`parse_text_file`; `header` is `None` until the first delimited line. -/
structure Table where
  name : PyStr
  header : Option (List PyStr)
  rows : List (List PyStr)
deriving Repr, DecidableEq

/-- `line.replace('.', ',').strip()` — the per-line normalization at the
top of the parser loop. -/
def normalizeLine (s : PyStr) : PyStr :=
  pyStrip (pyReplace '.' ',' s)

/-- Splitting a segment on `'&'` and stripping each field:
`[x.strip() for x in part.split('&')]`. -/
def splitFields (s : PyStr) : List PyStr :=
  (pySplitChar '&' s).map pyStrip

/-- `header_part, data_part = [p.strip() for p in line.split('#', 1)]`
followed by the two `'&'` splits, giving `(cols, vals)`. -/
def parseDataLine (line : PyStr) : List PyStr × List PyStr :=
  let headerPart := pyStrip (line.takeWhile (· ≠ '#'))
  let dataPart := pyStrip ((line.dropWhile (· ≠ '#')).drop 1)
  (splitFields headerPart, splitFields dataPart)

/-- The sentinel name `"Без названия"` used for implicitly created tables,
spelled as its character list. -/
def untitledName : PyStr :=
  ['Б', 'е', 'з', ' ', 'н', 'а', 'з', 'в', 'а', 'н', 'и', 'я']

/-- One iteration of the parser loop. The state is the list of finished
tables plus the currently open table (`current_table`); in the Python
source the open table already sits at the end of `tables` and is mutated
in place, which is equivalent to appending it when it is closed or
replaced. -/
def parseStep (st : List Table × Option Table) (raw : PyStr) :
    List Table × Option Table :=
  let line := normalizeLine raw
  if line = [] then
    (st.1 ++ st.2.toList, none)
  else if ¬ line.contains '#' then
    (st.1 ++ st.2.toList, some ⟨line, none, []⟩)
  else
    let cv := parseDataLine line
    match st.2 with
    | none => (st.1, some ⟨untitledName, some cv.1, [cv.2]⟩)
    | some t =>
      (st.1, some ⟨t.name, some (t.header.getD cv.1), t.rows ++ [cv.2]⟩)

/-- `parse_text_file`, applied to the already-split list of lines. -/
def parseLines (lines : List PyStr) : List Table :=
  let st := lines.foldl parseStep ([], none)
  st.1 ++ st.2.toList

/-! ## Worksheet cells -/

/-- A worksheet cell value after `df.to_excel`: a string, or (after
coercion) an `int` (written with number format `"0"`) or a `float`
(written with number format `"0.00"`). The constructor already determines
the number format the source sets alongside the value. -/
inductive Cell where
  | str : PyStr → Cell
  | int : Int → Cell
  | float : Rat → Cell
deriving Repr, DecidableEq

/-- Python `==` on cell values: strings compare by content, `int` and
`float` compare numerically (Python has `1 == 1.0`), and a string never
equals a number. -/
def Cell.pyEq : Cell → Cell → Bool
  | .str a, .str b => a = b
  | .int a, .int b => a = b
  | .int a, .float b => (a : Rat) = b
  | .float a, .int b => a = (b : Rat)
  | .float a, .float b => a = b
  | _, _ => false

/-- `value in (None, "")`: the emptiness test of the merge pass. Padded
cells hold the empty string (the model has no separate `None`). -/
def Cell.isEmpty : Cell → Bool
  | .str s => s = []
  | _ => false

/-! ## Numeric coercion (`convert_strings_to_numbers`) -/

/-- Value of a digit run, most significant first. -/
def digitsVal (ds : List Char) : Nat :=
  ds.foldl (fun a c => a * 10 + (c.toNat - '0'.toNat)) 0

/-- The optional exponent suffix of a float literal: `""` or
`e`/`E`, an optional sign, and a nonempty digit run. -/
def parseExpSuffix : PyStr → Option Int
  | [] => some 0
  | e :: rest =>
    if e = 'e' ∨ e = 'E' then
      let (sign, ds) : Int × PyStr :=
        match rest with
        | '+' :: r => (1, r)
        | '-' :: r => (-1, r)
        | r => (1, r)
      if ds ≠ [] ∧ ds.all Char.isDigit then some (sign * digitsVal ds) else none
    else none

/-- `10 ^ n`, spelled out so that every arithmetic step reduces. -/
def pow10 : Nat → Nat
  | 0 => 1
  | n + 1 => 10 * pow10 n

/-- The rational value `sign · mant · 10^e / 10^fracLen` of a decimal
literal with mantissa digits `mant`, `fracLen` digits after the point,
and exponent `e`. -/
def ratOfParts (sign : Int) (mant : Nat) (fracLen : Nat) (e : Int) : Rat :=
  if 0 ≤ e then
    mkRat (sign * (mant : Int) * (pow10 e.toNat : Int)) (pow10 fracLen)
  else
    mkRat (sign * (mant : Int)) (pow10 fracLen * pow10 (-e).toNat)

/-- Python `float(s)` on the decimal-literal grammar the program feeds it
(optional sign, digits with an optional point, optional exponent); the
exact rational value is kept. `inf`/`nan` spellings and digit
underscores are outside the inputs this program produces and are not
modelled. -/
def pyFloat (s : PyStr) : Option Rat :=
  let (sign, s1) : Int × PyStr :=
    match s with
    | '+' :: r => (1, r)
    | '-' :: r => (-1, r)
    | r => (1, r)
  let intPart := s1.takeWhile Char.isDigit
  let rest1 := s1.dropWhile Char.isDigit
  match rest1 with
  | '.' :: r2 =>
    let fracPart := r2.takeWhile Char.isDigit
    let rest2 := r2.dropWhile Char.isDigit
    if intPart = [] ∧ fracPart = [] then none
    else
      (parseExpSuffix rest2).map fun e =>
        ratOfParts sign (digitsVal (intPart ++ fracPart)) fracPart.length e
  | _ =>
    if intPart = [] then none
    else
      (parseExpSuffix rest1).map fun e =>
        ratOfParts sign (digitsVal intPart) 0 e

/-- The per-cell body of `convert_strings_to_numbers`: a non-empty string
cell whose comma-for-period substitution parses as a float becomes an
`int` cell when the value is integral, a `float` cell otherwise; every
other cell is left untouched. -/
def convertCell (c : Cell) : Cell :=
  match c with
  | .str val =>
    let valStr := pyStrip val
    if valStr = [] then c
    else
      match pyFloat (pyReplace ',' '.' valStr) with
      | none => c
      | some q => if q.den = 1 then .int q.num else .float q
  | _ => c

/-- `convert_strings_to_numbers` over the whole sheet. -/
def convertGrid (g : List (List Cell)) : List (List Cell) :=
  g.map (·.map convertCell)

/-! ## Vertical merge (`merge_cells_in_worksheet`) -/

/-- The scan of one column from row `row` on, with `rowStart` and
`cur` (= `current_value`) the running state; cells at rows `row, row+1, …`
are the list argument. On exhaustion the final fix-up merges
`rowStart..max_row` where `max_row = row - 1`. Returned pairs are the
`(start_row, end_row)` arguments of `ws.merge_cells`, in emission order. -/
def mergeRunsAux (rowStart : Nat) (cur : Cell) (row : Nat) :
    List Cell → List (Nat × Nat)
  | [] =>
    if ¬ cur.isEmpty ∧ rowStart < row - 1 then [(rowStart, row - 1)] else []
  | cv :: rest =>
    if ¬ (cv.pyEq cur) ∨ cur.isEmpty then
      (if ¬ cur.isEmpty ∧ rowStart < row - 1 then [(rowStart, row - 1)] else [])
        ++ mergeRunsAux row cv (row + 1) rest
    else
      mergeRunsAux rowStart cur (row + 1) rest

/-- The vertical merges of one column of the worksheet (the body of the
`for col` loop of `merge_cells_in_worksheet`). -/
def mergeRuns : List Cell → List (Nat × Nat)
  | [] => []
  | c :: cs => mergeRunsAux 1 c 2 cs

/-! ## Flattening and the sheet (`write_tables_to_excel`) -/

/-- `sheet_data`: per table a title row, a header row (empty when the
header is `None`), the data rows, and an empty separator row. -/
def sheetData (tables : List Table) : List (List PyStr) :=
  tables.flatMap fun t => [t.name] :: t.header.getD [] :: t.rows ++ [[]]

/-- `max_cols = max((len(row) for row in sheet_data), default=0)`. -/
def maxCols (rows : List (List PyStr)) : Nat :=
  (rows.map List.length).foldr max 0

/-- `normalized`: every row padded on the right with `""` cells to the
global width. -/
def normalizeRows (rows : List (List PyStr)) : List (List PyStr) :=
  let m := maxCols rows
  rows.map fun r => r ++ List.replicate (m - r.length) ([] : PyStr)

/-- The grid as written by `df.to_excel` (all cells still strings). -/
def rawGrid (tables : List Table) : List (List Cell) :=
  (normalizeRows (sheetData tables)).map (·.map Cell.str)

/-- Reading worksheet column `c` (1-based) top to bottom. -/
def colCells (g : List (List Cell)) (c : Nat) : List Cell :=
  g.map fun r => r.getD (c - 1) (.str [])

/-- `merge_cells_in_worksheet` over the whole sheet: columns
`1..max_column` in order, each contributing its runs as
`(column, start_row, end_row)` triples. -/
def sheetMerges (g : List (List Cell)) (maxCol : Nat) :
    List (Nat × Nat × Nat) :=
  (List.range' 1 maxCol).flatMap fun c =>
    (mergeRuns (colCells g c)).map fun p => (c, p.1, p.2)

/-! ## Title merge (`merge_table_names`) -/

/-- The per-table width: `max(len(header) if header else 0,
max((len(r) for r in rows), default=0), 1)`. -/
def tableWidth (t : Table) : Nat :=
  let headerWidth := match t.header with
    | some h => h.length
    | none => 0
  let rowsWidth := (t.rows.map List.length).foldr max 0
  max (max headerWidth rowsWidth) 1

/-- The row span a table occupies on the sheet:
1 title + 1 header + rows + 1 separator. -/
def tableSpan (t : Table) : Nat :=
  1 + 1 + t.rows.length + 1

/-- `merge_table_names` from `row_counter = rc`: each emitted pair is the
`(start_row = end_row, end_column)` of a title merge whose start column
is 1. -/
def titleMergesAux (rc : Nat) : List Table → List (Nat × Nat)
  | [] => []
  | t :: ts => (rc, tableWidth t) :: titleMergesAux (rc + tableSpan t) ts

/-- `merge_table_names` (`row_counter` starts at 1). -/
def titleMerges (tables : List Table) : List (Nat × Nat) :=
  titleMergesAux 1 tables

/-! ## Column widths (`set_column_widths_by_header`) -/

/-- The `ws.column_dimensions[col].width = length` assignments one table
contributes in `set_column_widths_by_header`, in execution order, as
`(column, width)` pairs (columns are 1-based). A header label only
qualifies when its length exceeds the default width 10; the
`col_name is None` guard of the source is unrepresentable here because
header fields are always strings. -/
def widthF (p : Nat × PyStr) : Option (Nat × Nat) :=
  if p.2.length > 10 then some (p.1, p.2.length) else none

def tableWidthUpdates (t : Table) : List (Nat × Nat) :=
  match t.header with
  | none => []
  | some h => (h.enumFrom 1).filterMap widthF

/-- `set_column_widths_by_header`: all width assignments, walking the
tables in order. -/
def widthUpdates (tables : List Table) : List (Nat × Nat) :=
  tables.flatMap tableWidthUpdates

/-- The width a column ends up with after all assignments: the last
assignment to that column wins (`ws.column_dimensions` is a mapping). -/
def finalWidth (updates : List (Nat × Nat)) (c : Nat) : Option Nat :=
  ((updates.filter fun p => p.1 = c).map Prod.snd).getLast?

/-! ## The whole renderer -/

/-- Everything `write_tables_to_excel` persists about the sheet (besides
the file itself): the coerced grid, the vertical merges, the title
merges, and the column-width assignments, produced in the source's fixed
order coerce → vertical-merge → title-merge → widths. -/
structure Sheet where
  grid : List (List Cell)
  merges : List (Nat × Nat × Nat)
  titles : List (Nat × Nat)
  widths : List (Nat × Nat)
deriving Repr, DecidableEq

/-- `write_tables_to_excel` (the in-memory part). The vertical-merge pass
reads the grid only after `convert_strings_to_numbers` ran on it. -/
def renderSheet (tables : List Table) : Sheet :=
  let g := convertGrid (rawGrid tables)
  { grid := g
    merges := sheetMerges g (maxCols (sheetData tables))
    titles := titleMerges tables
    widths := widthUpdates tables }

/-! ## Derived notions used to state the claims -/

instance : Inhabited Table := ⟨⟨[], none, []⟩⟩

/-- A line the parser treats as a title: non-blank after normalization and
free of the field separator `'#'`. -/
def isTitleLine (s : PyStr) : Prop :=
  normalizeLine s ≠ [] ∧ '#' ∉ normalizeLine s

instance (s : PyStr) : Decidable (isTitleLine s) := by
  unfold isTitleLine; infer_instance

/-- A line the parser treats as a delimited data line: it contains the
field separator `'#'` after normalization (such a line is automatically
non-blank). -/
def isDataLine (s : PyStr) : Prop :=
  '#' ∈ normalizeLine s

instance (s : PyStr) : Decidable (isDataLine s) := by
  unfold isDataLine; infer_instance

/-- An input file laid out as blank-line-separated blocks: the blocks'
lines in order, one empty line between consecutive blocks. -/
def joinBlocks : List (PyStr × List PyStr) → List PyStr
  | [] => []
  | [b] => b.1 :: b.2
  | b :: bs => (b.1 :: b.2) ++ [[]] ++ joinBlocks bs

/-- The effect on the open table of a run of delimited lines, each given
as its already-split `(cols, vals)` pair: the first pair's `cols` fills a
missing header, every pair's `vals` is appended. -/
def dataFold (t : Table) (ds : List (List PyStr × List PyStr)) : Table :=
  ds.foldl (fun t cv => ⟨t.name, some (t.header.getD cv.1), t.rows ++ [cv.2]⟩) t

/-- The table one well-formed block (a title line plus data lines)
parses to. -/
def blockTable (b : PyStr × List PyStr) : Table :=
  dataFold ⟨normalizeLine b.1, none, []⟩
    (b.2.map fun l => parseDataLine (normalizeLine l))

/-- The observable identity of a cell value under Python `==`: a string,
or a number (`int` and `float` compare by numeric value). -/
def Cell.interp : Cell → PyStr ⊕ Rat
  | .str s => .inl s
  | .int n => .inr (n : Rat)
  | .float q => .inr q

/-- 1-based read of a column, as `ws.cell(row=i, column=c)` reads it. -/
def cget (col : List Cell) (i : Nat) : Cell :=
  col.getD (i - 1) (.str [])

/-- `(a, b)` delimits a maximal vertical run eligible for merging:
at least two rows, all holding the same non-empty value under Python
equality, not extendable in either direction. -/
def goodRun (col : List Cell) (a b : Nat) : Prop :=
  1 ≤ a ∧ a < b ∧ b ≤ col.length ∧
  (cget col a).isEmpty = false ∧
  (∀ i, i ≤ b → a ≤ i → (cget col i).pyEq (cget col a) = true) ∧
  (a = 1 ∨ (cget col (a - 1)).pyEq (cget col a) = false) ∧
  (b = col.length ∨ (cget col (b + 1)).pyEq (cget col a) = false)

/-- The width one table tries to assign to column `c`: the length of its
header label at position `c`, when that length exceeds the default
width 10. -/
def qualWidth (t : Table) (c : Nat) : Option Nat :=
  t.header.bind fun h =>
    (h.get? (c - 1)).bind fun nm =>
      if nm.length > 10 then some nm.length else none

/-- The width the spec's "last-applied-wins" reading predicts for column
`c`: the length of the last header label at position `c` (in table order)
whose length exceeds the default width 10, if any. -/
def lastQualWidth (tables : List Table) (c : Nat) : Option Nat :=
  (tables.filterMap fun t => qualWidth t c).getLast?

/-- No string stored in a parsed table — name, header label, or row
field — contains a period. -/
def noDotTable (t : Table) : Prop :=
  '.' ∉ t.name ∧
  (∀ f ∈ t.header.getD [], '.' ∉ f) ∧
  (∀ r ∈ t.rows, ∀ f ∈ r, '.' ∉ f)

instance (t : Table) : Decidable (noDotTable t) := by
  unfold noDotTable; infer_instance

/-! ## Basic lemmas about cell equality -/

theorem pyEq_iff_interp (c d : Cell) : c.pyEq d = true ↔ c.interp = d.interp := by
  cases c <;> cases d <;>
    simp [Cell.pyEq, Cell.interp]

theorem pyEq_refl (c : Cell) : c.pyEq c = true := by
  rw [pyEq_iff_interp]

theorem pyEq_symm {c d : Cell} (h : c.pyEq d = true) : d.pyEq c = true := by
  rw [pyEq_iff_interp] at h ⊢
  exact h.symm

theorem pyEq_trans {c d e : Cell} (h1 : c.pyEq d = true)
    (h2 : d.pyEq e = true) : c.pyEq e = true := by
  rw [pyEq_iff_interp] at h1 h2 ⊢
  exact h1.trans h2

theorem pyEq_isEmpty {c d : Cell} (h : c.pyEq d = true) :
    c.isEmpty = d.isEmpty := by
  cases c <;> cases d <;>
    simp_all [Cell.pyEq, Cell.isEmpty]

/-! ## Numeric coercion: idempotence (claim C6) -/

theorem convertCell_str_cases (val : PyStr) :
    convertCell (Cell.str val) = Cell.str val ∨
    (∃ n, convertCell (Cell.str val) = Cell.int n) ∨
    (∃ q, convertCell (Cell.str val) = Cell.float q) := by
  by_cases h : pyStrip val = []
  · left
    simp [convertCell, h]
  · cases hf : pyFloat (pyReplace ',' '.' (pyStrip val)) with
    | none =>
      left
      simp [convertCell, h, hf]
    | some q =>
      by_cases hd : q.den = 1
      · right; left
        exact ⟨q.num, by simp [convertCell, h, hf, hd]⟩
      · right; right
        exact ⟨q, by simp [convertCell, h, hf, hd]⟩

theorem convertCell_idem (c : Cell) :
    convertCell (convertCell c) = convertCell c := by
  cases c with
  | str val =>
    rcases convertCell_str_cases val with h | ⟨n, h⟩ | ⟨q, h⟩ <;>
      rw [h] <;> first | exact h | rfl
  | int n => rfl
  | float q => rfl

/-- C6: the numeric-coercion pass is idempotent — applying
`convert_strings_to_numbers` twice to any grid yields the same grid as
applying it once, because only string-typed cells are considered and
already-numeric cells are untouched. -/
theorem coercion_idempotent (g : List (List Cell)) :
    convertGrid (convertGrid g) = convertGrid g := by
  unfold convertGrid
  rw [List.map_map]
  apply List.map_congr_left
  intro r _
  simp only [Function.comp_apply, List.map_map]
  apply List.map_congr_left
  intro c _
  exact convertCell_idem c

/-- C8: empty input is not an error — zero lines parse to zero
TableRecords, and rendering them yields a sheet with zero rows, zero
columns, and no merges or width assignments. -/
theorem empty_input_ok :
    parseLines [] = [] ∧
    maxCols (sheetData (parseLines [])) = 0 ∧
    renderSheet (parseLines []) = ⟨[], [], [], []⟩ := by
  refine ⟨rfl, rfl, rfl⟩

/-! ## Title merges (claim C5) -/

theorem titleMergesAux_get? (ts : List Table) :
    ∀ rc i, i < ts.length →
      (titleMergesAux rc ts).get? i =
        some (rc + ((ts.take i).map tableSpan).sum,
              tableWidth (ts.getD i default)) := by
  induction ts with
  | nil =>
    intro rc i h
    exact absurd h (by simp)
  | cons t ts ih =>
    intro rc i h
    cases i with
    | zero => simp [titleMergesAux]
    | succ j =>
      have hj : j < ts.length := by
        simpa using h
      show (titleMergesAux (rc + tableSpan t) ts).get? j = _
      rw [ih (rc + tableSpan t) j hj]
      simp [List.getD]
      omega

/-- C5: the `i`-th title merge spans the title row of the `i`-th table
(row `1 + Σ` of the earlier tables' spans) across columns `1..W`, where
`W = max(header field count, max data-row field count, 1)` is computed per
table, independently of the global rectangular width. -/
theorem title_merge_width (tables : List Table) (i : Nat)
    (hi : i < tables.length) :
    (titleMerges tables).get? i =
      some (1 + ((tables.take i).map tableSpan).sum,
            tableWidth (tables.getD i default)) :=
  titleMergesAux_get? tables 1 i hi

/-- C5 witness: a table with header `[a, b, c]` and one data row `[1, 2]`
has its title merged across exactly 3 columns. -/
theorem title_merge_width_example :
    (titleMerges
      [⟨['T'], some [['a'], ['b'], ['c']], [[['1'], ['2']]]⟩]).get? 0 =
      some (1, 3) := by
  rw [title_merge_width
    [⟨['T'], some [['a'], ['b'], ['c']], [[['1'], ['2']]]⟩] 0 (by decide)]
  decide

/-! ## Column widths (claim C3) -/

theorem toList_getLast? (o : Option α) : o.toList.getLast? = o := by
  cases o <;> rfl

theorem getLast?_append_or (a b : List α) :
    (a ++ b).getLast? = b.getLast?.or a.getLast? := by
  cases b with
  | nil => simp
  | cons y ys =>
    rw [List.getLast?_append_cons]
    cases h : (y :: ys).getLast? with
    | none => exact absurd h (by simp)
    | some v => simp [h]

theorem finalWidth_append (xs ys : List (Nat × Nat)) (c : Nat) :
    finalWidth (xs ++ ys) c = (finalWidth ys c).or (finalWidth xs c) := by
  unfold finalWidth
  rw [List.filter_append, List.map_append, getLast?_append_or]

theorem mem_enumFilter_fst_ge (h : List PyStr) :
    ∀ (k : Nat) (p : Nat × Nat),
      p ∈ (h.enumFrom k).filterMap widthF → k ≤ p.1 := by
  induction h with
  | nil => simp
  | cons nm h ih =>
    intro k p hp
    rw [List.enumFrom_cons] at hp
    by_cases h10 : nm.length > 10
    · rw [List.filterMap_cons_some
        (show widthF (k, nm) = some (k, nm.length) by simp [widthF, h10])] at hp
      rcases List.mem_cons.mp hp with h1 | h1
      · subst h1; exact Nat.le_refl k
      · exact Nat.le_of_succ_le (ih (k + 1) p h1)
    · rw [List.filterMap_cons_none
        (show widthF (k, nm) = none by simp [widthF, h10])] at hp
      exact Nat.le_of_succ_le (ih (k + 1) p hp)

theorem filter_enumFilter_high (h : List PyStr) (k : Nat) :
    (((h.enumFrom (k + 1)).filterMap widthF).filter fun p => p.1 = k) = [] := by
  rw [List.filter_eq_nil_iff]
  intro p hp
  have := mem_enumFilter_fst_ge h (k + 1) p hp
  simp only [decide_eq_true_eq]
  omega

theorem enum_filter_map (h : List PyStr) :
    ∀ k c, k ≤ c →
    ((((h.enumFrom k).filterMap widthF).filter (fun p => p.1 = c)).map
      Prod.snd) =
    ((h.get? (c - k)).bind fun nm =>
      if nm.length > 10 then some nm.length else none).toList := by
  induction h with
  | nil =>
    intro k c hk
    simp
  | cons nm h ih =>
    intro k c hk
    rw [List.enumFrom_cons]
    by_cases h10 : nm.length > 10
    · rw [List.filterMap_cons_some
        (show widthF (k, nm) = some (k, nm.length) by simp [widthF, h10])]
      by_cases hkc : k = c
      · subst hkc
        rw [List.filter_cons_of_pos (by simp), filter_enumFilter_high]
        simp [Nat.sub_self, h10]
      · rw [List.filter_cons_of_neg (by simp [hkc])]
        have hck : c - k = (c - (k + 1)) + 1 := by omega
        rw [hck, List.get?_cons_succ]
        exact ih (k + 1) c (by omega)
    · rw [List.filterMap_cons_none
        (show widthF (k, nm) = none by simp [widthF, h10])]
      by_cases hkc : k = c
      · subst hkc
        rw [filter_enumFilter_high]
        simp [Nat.sub_self, h10]
      · have hck : c - k = (c - (k + 1)) + 1 := by omega
        rw [hck, List.get?_cons_succ]
        exact ih (k + 1) c (by omega)

theorem filter_tableWidthUpdates (t : Table) (c : Nat) (hc : 1 ≤ c) :
    (((tableWidthUpdates t).filter fun p => p.1 = c).map Prod.snd) =
      (qualWidth t c).toList := by
  cases h : t.header with
  | none => simp [tableWidthUpdates, qualWidth, h]
  | some hs =>
    have := enum_filter_map hs 1 c hc
    simp only [tableWidthUpdates, qualWidth, h, Option.some_bind]
    exact this

/-- C3 (amended): the column-width pass is last-applied-wins — for every
column `c ≥ 1`, the final width recorded by `set_column_widths_by_header`
is the length of the last header label at position `c` (in table order)
whose length exceeds the default width 10; a later table's shorter (but
still qualifying) label therefore narrows the column. -/
theorem column_width_last_applied_wins (tables : List Table) (c : Nat)
    (hc : 1 ≤ c) :
    finalWidth (widthUpdates tables) c = lastQualWidth tables c := by
  induction tables with
  | nil => rfl
  | cons t ts ih =>
    have hsplit : widthUpdates (t :: ts) =
        tableWidthUpdates t ++ widthUpdates ts := by
      simp [widthUpdates]
    rw [hsplit, finalWidth_append, ih]
    have hq : lastQualWidth (t :: ts) c =
        ((qualWidth t c).toList ++ ts.filterMap fun t => qualWidth t c).getLast? := by
      unfold lastQualWidth
      rw [List.filterMap_cons]
      cases hqt : qualWidth t c <;> simp
    rw [hq, getLast?_append_or, toList_getLast?]
    unfold lastQualWidth
    congr 1
    unfold finalWidth
    rw [filter_tableWidthUpdates t c hc, toList_getLast?]

/-- C3 witness: the last-applied-wins characterization evaluated on two
tables whose headers both address column 1. -/
theorem column_width_last_applied_wins_example :
    finalWidth (widthUpdates
      [⟨['A'], some [['a','b','c','d','e','f','g','h','i','j','k','l','m','n','o','p']], []⟩,
       ⟨['B'], some [['a','b','c','d','e','f','g','h','i','j','k','l']], []⟩]) 1 =
    lastQualWidth
      [⟨['A'], some [['a','b','c','d','e','f','g','h','i','j','k','l','m','n','o','p']], []⟩,
       ⟨['B'], some [['a','b','c','d','e','f','g','h','i','j','k','l']], []⟩] 1 :=
  column_width_last_applied_wins _ 1 (by decide)

/-- C3 counterexample: the claim that the pass never narrows a column is
false — a first table sets column 1 to width 16, a later table's shorter
qualifying header overwrites it with width 12. -/
theorem width_narrowing_counterexample :
    widthUpdates
      [⟨['A'], some [['a','b','c','d','e','f','g','h','i','j','k','l','m','n','o','p']], []⟩,
       ⟨['B'], some [['a','b','c','d','e','f','g','h','i','j','k','l']], []⟩] =
      [(1, 16), (1, 12)] ∧
    finalWidth (widthUpdates
      [⟨['A'], some [['a','b','c','d','e','f','g','h','i','j','k','l','m','n','o','p']], []⟩,
       ⟨['B'], some [['a','b','c','d','e','f','g','h','i','j','k','l']], []⟩]) 1 =
      some 12 ∧
    ¬ (16 ≤ 12) := by
  refine ⟨by decide, by decide, by decide⟩

/-! ## Parser step lemmas -/

theorem parseStep_blank (st : List Table × Option Table) (raw : PyStr)
    (h : normalizeLine raw = []) :
    parseStep st raw = (st.1 ++ st.2.toList, none) := by
  simp [parseStep, h]

theorem parseStep_title (st : List Table × Option Table) (raw : PyStr)
    (h : isTitleLine raw) :
    parseStep st raw =
      (st.1 ++ st.2.toList, some ⟨normalizeLine raw, none, []⟩) := by
  obtain ⟨h1, h2⟩ := h
  simp [parseStep, h1, h2]

theorem isDataLine_nonblank {raw : PyStr} (h : isDataLine raw) :
    normalizeLine raw ≠ [] := by
  intro h0
  rw [isDataLine, h0] at h
  simp [List.contains] at h

theorem parseStep_data_none (acc : List Table) (raw : PyStr)
    (h : isDataLine raw) :
    parseStep (acc, none) raw =
      (acc, some ⟨untitledName, some (parseDataLine (normalizeLine raw)).1,
                  [(parseDataLine (normalizeLine raw)).2]⟩) := by
  rw [isDataLine] at h
  simp [parseStep, isDataLine_nonblank (by rwa [isDataLine]), h]

theorem parseStep_data_some (acc : List Table) (t : Table) (raw : PyStr)
    (h : isDataLine raw) :
    parseStep (acc, some t) raw =
      (acc, some ⟨t.name,
                  some (t.header.getD (parseDataLine (normalizeLine raw)).1),
                  t.rows ++ [(parseDataLine (normalizeLine raw)).2]⟩) := by
  rw [isDataLine] at h
  simp [parseStep, isDataLine_nonblank (by rwa [isDataLine]), h]

theorem foldl_data_lines (ds : List PyStr) :
    ∀ (acc : List Table) (t : Table), (∀ l ∈ ds, isDataLine l) →
      ds.foldl parseStep (acc, some t) =
        (acc, some (dataFold t (ds.map fun l => parseDataLine (normalizeLine l)))) := by
  induction ds with
  | nil => intro acc t _; rfl
  | cons l ds ih =>
    intro acc t h
    rw [List.foldl_cons, parseStep_data_some acc t l (h l (by simp))]
    rw [ih acc _ (fun x hx => h x (by simp [hx]))]
    rfl

theorem dataFold_name (ds : List (List PyStr × List PyStr)) :
    ∀ t, (dataFold t ds).name = t.name := by
  induction ds with
  | nil => intro t; rfl
  | cons cv ds ih => intro t; exact ih _

theorem dataFold_rows (ds : List (List PyStr × List PyStr)) :
    ∀ t, (dataFold t ds).rows = t.rows ++ ds.map Prod.snd := by
  induction ds with
  | nil => intro t; simp [dataFold]
  | cons cv ds ih =>
    intro t
    show (dataFold _ ds).rows = _
    rw [ih]
    simp

theorem dataFold_header_some (ds : List (List PyStr × List PyStr)) :
    ∀ t h, t.header = some h → (dataFold t ds).header = some h := by
  induction ds with
  | nil => intro t h hh; exact hh
  | cons cv ds ih =>
    intro t h hh
    exact ih _ h (by simp [hh])

theorem dataFold_header_none (ds : List (List PyStr × List PyStr))
    (cv : List PyStr × List PyStr) (t : Table) (hh : t.header = none) :
    (dataFold t (cv :: ds)).header = some cv.1 := by
  show (dataFold _ ds).header = some cv.1
  exact dataFold_header_some ds _ cv.1 (by simp [hh])

/-- C7: once the open table's header is set, a run of subsequent delimited
lines never overwrites it — their candidate header fields are discarded
while their data values are still appended to `rows`, in order. -/
theorem header_never_overwritten (acc : List Table) (t : Table)
    (h : List PyStr) (ds : List PyStr) (hh : t.header = some h)
    (hd : ∀ l ∈ ds, isDataLine l) :
    ds.foldl parseStep (acc, some t) =
      (acc, some ⟨t.name, some h,
        t.rows ++ ds.map fun l => (parseDataLine (normalizeLine l)).2⟩) := by
  rw [foldl_data_lines ds acc t hd]
  refine congrArg _ (congrArg _ ?_)
  have hn := dataFold_name (ds.map fun l => parseDataLine (normalizeLine l)) t
  have hr := dataFold_rows (ds.map fun l => parseDataLine (normalizeLine l)) t
  have hhd := dataFold_header_some
    (ds.map fun l => parseDataLine (normalizeLine l)) t h hh
  cases hfold : dataFold t (ds.map fun l => parseDataLine (normalizeLine l))
  rw [hfold] at hn hr hhd
  simp only at hn hr hhd
  rw [hn, hr, hhd, List.map_map]
  rfl

/-- C7 witness: a table whose header is already `[h]` processes the
delimited line `x#y` by keeping header `[h]` (discarding `x`) and
appending the value row `[y]`. -/
theorem header_never_overwritten_example :
    [['x', '#', 'y']].foldl parseStep ([], some ⟨['T'], some [['h']], []⟩) =
      ([], some ⟨['T'], some [['h']], [[['y']]]⟩) := by
  rw [header_never_overwritten [] ⟨['T'], some [['h']], []⟩ [['h']]
    [['x', '#', 'y']] rfl (by decide)]
  decide

/-! ## Parser invariants (claims C9 and C10) -/

theorem parseStep_pres (P : Table → Prop) (st : List Table × Option Table)
    (raw : PyStr)
    (hTitle : ∀ s, isTitleLine s → P ⟨normalizeLine s, none, []⟩)
    (hNone : isDataLine raw →
      P ⟨untitledName, some (parseDataLine (normalizeLine raw)).1,
         [(parseDataLine (normalizeLine raw)).2]⟩)
    (hSome : ∀ t, P t → isDataLine raw →
      P ⟨t.name, some (t.header.getD (parseDataLine (normalizeLine raw)).1),
         t.rows ++ [(parseDataLine (normalizeLine raw)).2]⟩)
    (h : ∀ t ∈ st.1 ++ st.2.toList, P t) :
    ∀ t ∈ (parseStep st raw).1 ++ (parseStep st raw).2.toList, P t := by
  by_cases h1 : normalizeLine raw = []
  · rw [parseStep_blank st raw h1]
    intro t ht
    exact h t (by simpa using ht)
  · by_cases h2 : '#' ∈ normalizeLine raw
    · obtain ⟨acc, cur⟩ := st
      cases cur with
      | none =>
        rw [parseStep_data_none acc raw h2]
        intro t ht
        rcases List.mem_append.mp ht with hm | hm
        · exact h t (by simpa using hm)
        · simp only [Option.toList_some, List.mem_singleton] at hm
          subst hm
          exact hNone h2
      | some t0 =>
        rw [parseStep_data_some acc t0 raw h2]
        intro t ht
        rcases List.mem_append.mp ht with hm | hm
        · exact h t (List.mem_append.mpr (Or.inl hm))
        · simp only [Option.toList_some, List.mem_singleton] at hm
          subst hm
          exact hSome t0 (h t0 (by simp)) h2
    · rw [parseStep_title st raw ⟨h1, h2⟩]
      intro t ht
      rcases List.mem_append.mp ht with hm | hm
      · exact h t hm
      · simp only [Option.toList_some, List.mem_singleton] at hm
        subst hm
        exact hTitle raw ⟨h1, h2⟩

theorem foldl_pres (P : Table → Prop) (lines : List PyStr)
    (hTitle : ∀ s, isTitleLine s → P ⟨normalizeLine s, none, []⟩)
    (hNone : ∀ raw, isDataLine raw →
      P ⟨untitledName, some (parseDataLine (normalizeLine raw)).1,
         [(parseDataLine (normalizeLine raw)).2]⟩)
    (hSome : ∀ raw t, P t → isDataLine raw →
      P ⟨t.name, some (t.header.getD (parseDataLine (normalizeLine raw)).1),
         t.rows ++ [(parseDataLine (normalizeLine raw)).2]⟩) :
    ∀ st, (∀ t ∈ st.1 ++ st.2.toList, P t) →
      ∀ t ∈ (lines.foldl parseStep st).1 ++
            (lines.foldl parseStep st).2.toList, P t := by
  induction lines with
  | nil => intro st h; exact h
  | cons l lines ih =>
    intro st h
    rw [List.foldl_cons]
    exact ih (parseStep st l)
      (parseStep_pres P st l hTitle (hNone l) (hSome l) h)

theorem mem_parseLines_pres (P : Table → Prop) (lines : List PyStr)
    (hTitle : ∀ s, isTitleLine s → P ⟨normalizeLine s, none, []⟩)
    (hNone : ∀ raw, isDataLine raw →
      P ⟨untitledName, some (parseDataLine (normalizeLine raw)).1,
         [(parseDataLine (normalizeLine raw)).2]⟩)
    (hSome : ∀ raw t, P t → isDataLine raw →
      P ⟨t.name, some (t.header.getD (parseDataLine (normalizeLine raw)).1),
         t.rows ++ [(parseDataLine (normalizeLine raw)).2]⟩) :
    ∀ t ∈ parseLines lines, P t := by
  intro t ht
  have hres := foldl_pres P lines hTitle hNone hSome ([], none) (by simp)
  exact hres t (by simpa [parseLines] using ht)

/-- C9: every parsed table with a non-empty `rows` has a header — a data
value row is only ever appended after the open record got a header. -/
theorem rows_nonempty_header_some (lines : List PyStr) (t : Table)
    (ht : t ∈ parseLines lines) (hr : t.rows ≠ []) : t.header.isSome := by
  have := mem_parseLines_pres (fun t => t.rows ≠ [] → t.header.isSome) lines
    (by intro s _ h0; exact absurd rfl h0)
    (by intro raw _ _; rfl)
    (by intro raw t0 _ _ _; rfl)
    t ht
  exact this hr

/-- C9 witness: the table parsed from the single line `a#b` has one row
and a header. -/
theorem rows_nonempty_header_some_example :
    (Table.mk untitledName (some [['a']]) [[['b']]]).header.isSome :=
  rows_nonempty_header_some [['a', '#', 'b']]
    ⟨untitledName, some [['a']], [[['b']]]⟩ (by decide) (by decide)

theorem mem_pyStrip {a : Char} {s : PyStr} (h : a ∈ pyStrip s) : a ∈ s := by
  unfold pyStrip at h
  rw [List.mem_reverse] at h
  have h2 := (List.dropWhile_sublist _).subset h
  rw [List.mem_reverse] at h2
  exact (List.dropWhile_sublist _).subset h2

theorem dot_not_mem_normalizeLine (s : PyStr) : '.' ∉ normalizeLine s := by
  intro h
  have h1 : '.' ∈ pyReplace '.' ',' s := mem_pyStrip h
  unfold pyReplace at h1
  rw [List.mem_map] at h1
  obtain ⟨c, _, hc⟩ := h1
  by_cases hcd : c = '.'
  · rw [if_pos hcd] at hc
    exact absurd hc (by decide)
  · rw [if_neg hcd] at hc
    exact hcd hc

theorem mem_pySplitChar {c : Char} (s : PyStr) :
    ∀ y ∈ pySplitChar c s, ∀ a ∈ y, a ∈ s := by
  induction s with
  | nil =>
    intro y hy a ha
    simp [pySplitChar] at hy
    subst hy
    simp at ha
  | cons x xs ih =>
    intro y hy a ha
    unfold pySplitChar at hy
    by_cases hx : x = c
    · rw [if_pos hx] at hy
      rcases List.mem_cons.mp hy with h1 | h1
      · subst h1; simp at ha
      · exact List.mem_cons_of_mem x (ih y h1 a ha)
    · rw [if_neg hx] at hy
      cases hsp : pySplitChar c xs with
      | nil =>
        rw [hsp] at hy
        simp at hy
        subst hy
        rw [List.mem_singleton.mp ha]
        exact List.mem_cons_self x xs
      | cons y0 ys =>
        rw [hsp] at hy
        rcases List.mem_cons.mp hy with h1 | h1
        · subst h1
          rcases List.mem_cons.mp ha with h2 | h2
          · rw [h2]; exact List.mem_cons_self x xs
          · have hy0 : y0 ∈ pySplitChar c xs := by
              rw [hsp]; exact List.mem_cons_self y0 ys
            exact List.mem_cons_of_mem x (ih y0 hy0 a h2)
        · have hyy : y ∈ pySplitChar c xs := by
            rw [hsp]; exact List.mem_cons_of_mem y0 h1
          exact List.mem_cons_of_mem x (ih y hyy a ha)

theorem mem_splitFields {s : PyStr} :
    ∀ f ∈ splitFields s, ∀ a ∈ f, a ∈ s := by
  intro f hf a ha
  unfold splitFields at hf
  rw [List.mem_map] at hf
  obtain ⟨y, hy, rfl⟩ := hf
  exact mem_pySplitChar s y hy a (mem_pyStrip ha)

theorem mem_parseDataLine_fst {line : PyStr} :
    ∀ f ∈ (parseDataLine line).1, ∀ a ∈ f, a ∈ line := by
  intro f hf a ha
  have h1 := mem_splitFields f hf a ha
  exact (List.takeWhile_sublist _).subset (mem_pyStrip h1)

theorem mem_parseDataLine_snd {line : PyStr} :
    ∀ f ∈ (parseDataLine line).2, ∀ a ∈ f, a ∈ line := by
  intro f hf a ha
  have h1 := mem_splitFields f hf a ha
  have h2 := mem_pyStrip h1
  have h3 := (List.drop_sublist _ _).subset h2
  exact (List.dropWhile_sublist _).subset h3

/-- C10: no string stored by the parser — table name, header label, or
row field — contains a period, because every period in every raw line is
replaced by a comma before any splitting or storing happens. -/
theorem parsed_strings_dot_free (lines : List PyStr) (t : Table)
    (ht : t ∈ parseLines lines) : noDotTable t := by
  refine mem_parseLines_pres noDotTable lines ?_ ?_ ?_ t ht
  · intro s _
    exact ⟨dot_not_mem_normalizeLine s, by simp, by simp⟩
  · intro raw _
    refine ⟨show ('.' : Char) ∉ untitledName by decide, ?_, ?_⟩
    · intro f hf
      intro hdot
      exact dot_not_mem_normalizeLine raw (mem_parseDataLine_fst f hf '.' hdot)
    · intro r hr f hf hdot
      rw [List.mem_singleton.mp hr] at hf
      exact dot_not_mem_normalizeLine raw (mem_parseDataLine_snd f hf '.' hdot)
  · intro raw t0 hP _
    obtain ⟨hPn, hPh, hPr⟩ := hP
    refine ⟨hPn, ?_, ?_⟩
    · cases hh : t0.header with
      | none =>
        simp only [hh, Option.getD_none, Option.getD_some]
        intro f hf hdot
        exact dot_not_mem_normalizeLine raw (mem_parseDataLine_fst f hf '.' hdot)
      | some hs =>
        simp only [hh, Option.getD_some]
        intro f hf
        exact hPh f (by simp [hh, hf])
    · intro r hr f hf hdot
      rcases List.mem_append.mp hr with hm | hm
      · exact hPr r hm f hf hdot
      · rw [List.mem_singleton.mp hm] at hf
        exact dot_not_mem_normalizeLine raw (mem_parseDataLine_snd f hf '.' hdot)

/-- C10 witness: the line `a.b#1.5` parses to a table whose name, header
label `a,b`, and row field `1,5` are all period-free. -/
theorem parsed_strings_dot_free_example :
    noDotTable ⟨untitledName, some [['a', ',', 'b']], [[['1', ',', '5']]]⟩ :=
  parsed_strings_dot_free [['a', '.', 'b', '#', '1', '.', '5']]
    ⟨untitledName, some [['a', ',', 'b']], [[['1', ',', '5']]]⟩ (by decide)

/-! ## Block-structured input (claim C1) -/

theorem foldl_block (acc : List Table) (b : PyStr × List PyStr)
    (hT : isTitleLine b.1) (hD : ∀ l ∈ b.2, isDataLine l) :
    (b.1 :: b.2).foldl parseStep (acc, none) = (acc, some (blockTable b)) := by
  rw [List.foldl_cons, parseStep_title (acc, none) b.1 hT]
  simp only [Option.toList_none, List.append_nil]
  exact foldl_data_lines b.2 acc _ hD

theorem parse_joinBlocks_from (blocks : List (PyStr × List PyStr)) :
    ∀ acc : List Table,
      (∀ b ∈ blocks, isTitleLine b.1) →
      (∀ b ∈ blocks, ∀ l ∈ b.2, isDataLine l) →
      ((joinBlocks blocks).foldl parseStep (acc, none)).1 ++
        ((joinBlocks blocks).foldl parseStep (acc, none)).2.toList =
      acc ++ blocks.map blockTable := by
  induction blocks with
  | nil => intro acc _ _; simp [joinBlocks]
  | cons b ts ih =>
    intro acc hT hD
    cases ts with
    | nil =>
      rw [show joinBlocks [b] = b.1 :: b.2 from rfl,
        foldl_block acc b (hT b (by simp)) (hD b (by simp))]
      simp
    | cons t' ts' =>
      have hj : joinBlocks (b :: t' :: ts') =
          (b.1 :: b.2) ++ ([] :: joinBlocks (t' :: ts')) := by
        simp [joinBlocks]
      rw [hj, List.foldl_append,
        foldl_block acc b (hT b (by simp)) (hD b (by simp)),
        List.foldl_cons,
        parseStep_blank (acc, some (blockTable b)) [] rfl]
      simp only [Option.toList_some]
      have := ih (acc ++ [blockTable b])
        (fun x hx => hT x (by simp [hx]))
        (fun x hx => hD x (by simp [hx]))
      rw [this]
      simp

theorem parseLines_joinBlocks (blocks : List (PyStr × List PyStr))
    (hT : ∀ b ∈ blocks, isTitleLine b.1)
    (hD : ∀ b ∈ blocks, ∀ l ∈ b.2, isDataLine l) :
    parseLines (joinBlocks blocks) = blocks.map blockTable := by
  have := parse_joinBlocks_from blocks [] hT hD
  simpa [parseLines] using this

theorem blockTable_name (b : PyStr × List PyStr) :
    (blockTable b).name = normalizeLine b.1 :=
  dataFold_name _ _

theorem blockTable_rows (b : PyStr × List PyStr) :
    (blockTable b).rows = b.2.map fun l => (parseDataLine (normalizeLine l)).2 := by
  unfold blockTable
  rw [dataFold_rows]
  simp [List.map_map]

theorem blockTable_header (b : PyStr × List PyStr) (hne : b.2 ≠ []) :
    (blockTable b).header =
      some (parseDataLine (normalizeLine (b.2.getD 0 []))).1 := by
  unfold blockTable
  obtain ⟨p, ds⟩ := b
  cases hb : ds with
  | nil => exact absurd hb hne
  | cons l ls =>
    subst hb
    rw [List.map_cons, dataFold_header_none _ _ _ rfl]
    rfl

/-- C1: for an input laid out as blank-line-separated blocks, each a
title line followed by at least one delimited data line, the parser
produces exactly one TableRecord per block, in order; the `i`-th record
carries the `i`-th block's normalized title as name, one value row per
data line of that block, and the header fields of that block's first
delimited line. -/
theorem blocks_parse_shape (blocks : List (PyStr × List PyStr))
    (hT : ∀ b ∈ blocks, isTitleLine b.1)
    (hD : ∀ b ∈ blocks, b.2 ≠ [] ∧ ∀ l ∈ b.2, isDataLine l) :
    parseLines (joinBlocks blocks) = blocks.map blockTable ∧
    ∀ b ∈ blocks,
      (blockTable b).name = normalizeLine b.1 ∧
      (blockTable b).rows.length = b.2.length ∧
      (blockTable b).header =
        some (parseDataLine (normalizeLine (b.2.getD 0 []))).1 := by
  refine ⟨parseLines_joinBlocks blocks hT (fun b hb => (hD b hb).2), ?_⟩
  intro b hb
  refine ⟨blockTable_name b, ?_, blockTable_header b (hD b hb).1⟩
  rw [blockTable_rows]
  simp

/-- C1 witness: one block consisting of the title `Sales` and the data
lines `Region&Amount#North&10.5` (twice) parses to exactly one record
with two rows and header `[Region, Amount]`. -/
theorem blocks_parse_shape_example :
    parseLines (joinBlocks
      [(['S', 'a', 'l', 'e', 's'],
        [['R', 'e', 'g', 'i', 'o', 'n', '&', 'A', 'm', 'o', 'u', 'n', 't',
          '#', 'N', 'o', 'r', 't', 'h', '&', '1', '0', '.', '5'],
         ['R', 'e', 'g', 'i', 'o', 'n', '&', 'A', 'm', 'o', 'u', 'n', 't',
          '#', 'N', 'o', 'r', 't', 'h', '&', '1', '0', '.', '5']])]) =
      [(['S', 'a', 'l', 'e', 's'],
        [['R', 'e', 'g', 'i', 'o', 'n', '&', 'A', 'm', 'o', 'u', 'n', 't',
          '#', 'N', 'o', 'r', 't', 'h', '&', '1', '0', '.', '5'],
         ['R', 'e', 'g', 'i', 'o', 'n', '&', 'A', 'm', 'o', 'u', 'n', 't',
          '#', 'N', 'o', 'r', 't', 'h', '&', '1', '0', '.', '5']])].map
        blockTable ∧
    (blockTable (['S', 'a', 'l', 'e', 's'],
        [['R', 'e', 'g', 'i', 'o', 'n', '&', 'A', 'm', 'o', 'u', 'n', 't',
          '#', 'N', 'o', 'r', 't', 'h', '&', '1', '0', '.', '5'],
         ['R', 'e', 'g', 'i', 'o', 'n', '&', 'A', 'm', 'o', 'u', 'n', 't',
          '#', 'N', 'o', 'r', 't', 'h', '&', '1', '0', '.', '5']])).rows.length = 2 := by
  have h := blocks_parse_shape
    [(['S', 'a', 'l', 'e', 's'],
      [['R', 'e', 'g', 'i', 'o', 'n', '&', 'A', 'm', 'o', 'u', 'n', 't',
        '#', 'N', 'o', 'r', 't', 'h', '&', '1', '0', '.', '5'],
       ['R', 'e', 'g', 'i', 'o', 'n', '&', 'A', 'm', 'o', 'u', 'n', 't',
        '#', 'N', 'o', 'r', 't', 'h', '&', '1', '0', '.', '5']])]
    (by decide) (by decide)
  exact ⟨h.1, (h.2 _ (by simp)).2.1⟩

/-! ## Coercion before merging (claim C2) -/

/-- C2 counterexample: two vertically adjacent cells whose original
string values are `"1"` and `"1.0"` ARE conflated — both coerce to the
integer 1, so the merge pass (which compares post-coercion values) merges
them, contrary to the claim that they are not conflated. -/
theorem conflation_counterexample :
    rawGrid [⟨['T'], some [['h']], [[['1']], [['1', '.', '0']]]⟩] =
      [[.str ['T']], [.str ['h']], [.str ['1']], [.str ['1', '.', '0']],
       [.str []]] ∧
    (1, 3, 4) ∈
      (renderSheet [⟨['T'], some [['h']], [[['1']], [['1', '.', '0']]]⟩]).merges := by
  refine ⟨by decide, by decide⟩

/-- C2 (amended): coercion runs before merging, so vertical-merge
equality is computed on post-coercion cell values; as a consequence two
vertically adjacent cells whose original string values were `"1"` and
`"1.0"` — distinct as strings — both coerce to the integer 1 and are
conflated into one merged cell. -/
theorem merge_equality_post_coercion :
    convertCell (.str ['1']) = .int 1 ∧
    convertCell (.str ['1', '.', '0']) = .int 1 ∧
    (.str ['1'] : Cell) ≠ .str ['1', '.', '0'] ∧
    (renderSheet [⟨['T'], some [['h']], [[['1']], [['1', '.', '0']]]⟩]).grid =
      [[.str ['T']], [.str ['h']], [.int 1], [.int 1], [.str []]] ∧
    (renderSheet [⟨['T'], some [['h']], [[['1']], [['1', '.', '0']]]⟩]).merges =
      [(1, 3, 4)] := by
  refine ⟨by decide, by decide, by decide, by decide, by decide⟩

/-! ## Vertical-merge characterization (claim C4) -/

theorem goodRun_start_eq (col : List Cell) (rowStart row a b : Nat)
    (cur : Cell) (hcur : cur = cget col rowStart) (hrs1 : 1 ≤ rowStart)
    (hI2 : ∀ i, rowStart ≤ i → i < row → (cget col i).pyEq cur = true)
    (hg : goodRun col a b) (hra : rowStart ≤ a) (haro : a < row) :
    a = rowStart := by
  obtain ⟨hg1, hg2, hg3, hg4, hg5, hg6, hg7⟩ := hg
  by_contra hne
  have ha2 : rowStart < a := by omega
  have h1 : (cget col a).pyEq cur = true := hI2 a (by omega) haro
  have h2 : (cget col (a - 1)).pyEq cur = true := hI2 (a - 1) (by omega) (by omega)
  have h3 : (cget col (a - 1)).pyEq (cget col a) = true :=
    pyEq_trans h2 (pyEq_symm h1)
  rcases hg6 with h4 | h4
  · omega
  · rw [h3] at h4
    exact absurd h4 (by simp)

theorem mergeRunsAux_mem_iff (col : List Cell) :
    ∀ (rest : List Cell) (rowStart row : Nat) (cur : Cell),
      rest = col.drop (row - 1) →
      row - 1 ≤ col.length →
      1 ≤ rowStart → rowStart < row →
      cur = cget col rowStart →
      (∀ i, rowStart ≤ i → i < row → (cget col i).pyEq cur = true) →
      (cur.isEmpty = true ∨ rowStart = 1 ∨
        (cget col (rowStart - 1)).pyEq cur = false) →
      ∀ a b, (a, b) ∈ mergeRunsAux rowStart cur row rest ↔
        (goodRun col a b ∧ rowStart ≤ a) := by
  intro rest
  induction rest with
  | nil =>
    intro rowStart row cur hrest hrow hrs1 hlt hcur hI2 hI3 a b
    have hL : row - 1 = col.length := by
      have := congrArg List.length hrest
      simp [List.length_drop] at this
      omega
    simp only [mergeRunsAux]
    by_cases hcond : ¬ cur.isEmpty = true ∧ rowStart < row - 1
    · rw [if_pos hcond]
      simp only [List.mem_singleton, Prod.mk.injEq]
      constructor
      · rintro ⟨rfl, rfl⟩
        refine ⟨⟨hrs1, by omega, by omega, ?_, ?_, ?_, ?_⟩, Nat.le_refl _⟩
        · rw [← hcur]
          simpa using hcond.1
        · intro i hib hai
          rw [← hcur]
          exact hI2 i hai (by omega)
        · rcases hI3 with h | h | h
          · exact absurd h hcond.1
          · left; exact h
          · right; rw [← hcur]; exact h
        · left; omega
      · rintro ⟨hg, hra⟩
        have haro : a < row := by
          obtain ⟨hg1, hg2, hg3, _⟩ := hg
          omega
        have ha := goodRun_start_eq col rowStart row a b cur hcur hrs1 hI2
          hg hra haro
        obtain ⟨hg1, hg2, hg3, hg4, hg5, hg6, hg7⟩ := hg
        refine ⟨ha, ?_⟩
        by_contra hbne
        have hblt : b < row - 1 := by omega
        rcases hg7 with h | h
        · omega
        · have ht : (cget col (b + 1)).pyEq cur = true :=
            hI2 (b + 1) (by omega) (by omega)
          rw [ha, ← hcur] at h
          rw [h] at ht
          exact absurd ht (by decide)
    · rw [if_neg hcond]
      constructor
      · intro h
        exact absurd h (List.not_mem_nil _)
      rintro ⟨hg, hra⟩
      exfalso
      have hor : cur.isEmpty = true ∨ row - 1 ≤ rowStart := by
        by_cases h1 : cur.isEmpty = true
        · exact Or.inl h1
        · refine Or.inr ?_
          by_contra h2
          exact hcond ⟨h1, by omega⟩
      rcases hor with hcure | hge
      · have haro : a < row := by
          obtain ⟨hg1, hg2, hg3, _⟩ := hg
          omega
        have ha := goodRun_start_eq col rowStart row a b cur hcur hrs1 hI2
          hg hra haro
        obtain ⟨hg1, hg2, hg3, hg4, _⟩ := hg
        rw [ha, ← hcur] at hg4
        rw [hg4] at hcure
        exact absurd hcure (by decide)
      · obtain ⟨hg1, hg2, hg3, _⟩ := hg
        omega
  | cons cv rest ih =>
    intro rowStart row cur hrest hrow hrs1 hlt hcur hI2 hI3 a b
    have hlen : row - 1 < col.length := by
      have := congrArg List.length hrest
      simp [List.length_drop] at this
      omega
    have hdec := List.drop_eq_getElem_cons hlen
    rw [← hrest] at hdec
    have hcv : cget col row = cv := by
      unfold cget
      rw [List.getD_eq_getElem?_getD, List.getElem?_eq_getElem hlen]
      exact (congrArg some (List.cons.injEq _ _ _ _ |>.mp hdec).1.symm) ▸ rfl
    have hrest2 : rest = col.drop row := by
      have h2 := (List.cons.injEq _ _ _ _ |>.mp hdec).2
      rw [h2]
      congr 1
      omega
    simp only [mergeRunsAux]
    by_cases hc : ¬ cv.pyEq cur = true ∨ cur.isEmpty = true
    · rw [if_pos hc]
      have hprev : (cget col (row - 1)).pyEq cur = true :=
        hI2 (row - 1) (by omega) (by omega)
      have hI3new : cv.isEmpty = true ∨ row = 1 ∨
          (cget col (row - 1)).pyEq cv = false := by
        by_cases hpc : (cget col (row - 1)).pyEq cv = true
        · have hcvcur : cv.pyEq cur = true := pyEq_trans (pyEq_symm hpc) hprev
          rcases hc with h | h
          · exact absurd hcvcur h
          · left
            rw [pyEq_isEmpty hcvcur]
            exact h
        · right; right
          simpa using hpc
      have hihrec := ih row (row + 1) cv
        (by simpa using hrest2)
        (by omega) (by omega) (by omega)
        (by rw [hcv])
        (fun i hi1 hi2 => by
          have hieq : i = row := by omega
          rw [hieq, hcv]
          exact pyEq_refl cv)
        hI3new a b
      by_cases hE : ¬ cur.isEmpty = true ∧ rowStart < row - 1
      · rw [if_pos hE, List.singleton_append, List.mem_cons]
        constructor
        · rintro (heq | hmem)
          · obtain ⟨rfl, rfl⟩ : a = rowStart ∧ b = row - 1 := by
              simpa [Prod.ext_iff] using heq
            refine ⟨⟨hrs1, by omega, by omega, ?_, ?_, ?_, ?_⟩, Nat.le_refl _⟩
            · rw [← hcur]
              simpa using hE.1
            · intro i hib hai
              rw [← hcur]
              exact hI2 i hai (by omega)
            · rcases hI3 with h | h | h
              · exact absurd h hE.1
              · left; exact h
              · right; rw [← hcur]; exact h
            · right
              have hb1 : row - 1 + 1 = row := by omega
              rw [hb1, hcv, ← hcur]
              rcases hc with h | h
              · simpa using h
              · exact absurd h hE.1
          · obtain ⟨hg, hrowa⟩ := hihrec.mp hmem
            exact ⟨hg, by omega⟩
        · rintro ⟨hg, hra⟩
          by_cases hrowle : row ≤ a
          · right
            exact hihrec.mpr ⟨hg, hrowle⟩
          · left
            have haro : a < row := by omega
            have ha := goodRun_start_eq col rowStart row a b cur hcur hrs1
              hI2 hg hra haro
            obtain ⟨hg1, hg2, hg3, hg4, hg5, hg6, hg7⟩ := hg
            have hble : b ≤ row - 1 := by
              by_contra hbgt
              have h5 := hg5 row (by omega) (by omega)
              rw [hcv, ha, ← hcur] at h5
              rcases hc with h | h
              · exact absurd h5 h
              · exact absurd h hE.1
            have hbe : b = row - 1 := by
              by_contra hbne
              have hblt2 : b < row - 1 := by omega
              rcases hg7 with h | h
              · omega
              · have ht : (cget col (b + 1)).pyEq cur = true :=
                  hI2 (b + 1) (by omega) (by omega)
                rw [ha, ← hcur] at h
                rw [h] at ht
                exact absurd ht (by decide)
            rw [ha, hbe]
      · rw [if_neg hE, List.nil_append, hihrec]
        constructor
        · rintro ⟨hg, hrowa⟩
          exact ⟨hg, by omega⟩
        · rintro ⟨hg, hra⟩
          refine ⟨hg, ?_⟩
          by_contra hlt2
          have haro : a < row := by omega
          have ha := goodRun_start_eq col rowStart row a b cur hcur hrs1
            hI2 hg hra haro
          obtain ⟨hg1, hg2, hg3, hg4, hg5, hg6, hg7⟩ := hg
          by_cases hcure : cur.isEmpty = true
          · rw [ha, ← hcur] at hg4
            rw [hg4] at hcure
            exact absurd hcure (by decide)
          · have hrs_ge : row - 1 ≤ rowStart := by
              by_contra hlt3
              exact hE ⟨hcure, by omega⟩
            have h5 := hg5 row (by omega) (by omega)
            rw [hcv, ha, ← hcur] at h5
            rcases hc with h | h
            · exact absurd h5 h
            · exact absurd h hcure
    · rw [if_neg hc]
      push_neg at hc
      obtain ⟨hceq, hcne⟩ := hc
      have hceq2 : cv.pyEq cur = true := by simpa using hceq
      exact ih rowStart (row + 1) cur
        (by simpa using hrest2)
        (by omega) hrs1 (by omega) hcur
        (fun i hi1 hi2 => by
          rcases Nat.lt_succ_iff_lt_or_eq.mp hi2 with h | h
          · exact hI2 i hi1 h
          · rw [h, hcv]
            exact hceq2)
        hI3 a b

theorem mergeRuns_mem_iff (col : List Cell) (a b : Nat) :
    (a, b) ∈ mergeRuns col ↔ goodRun col a b := by
  cases col with
  | nil =>
    simp only [mergeRuns, List.not_mem_nil, false_iff]
    rintro ⟨hg1, hg2, hg3, _⟩
    simp at hg3
    omega
  | cons c cs =>
    have h := mergeRunsAux_mem_iff (c :: cs) cs 1 2 c rfl (by simp)
      (by omega) (by omega) rfl
      (fun i h1 h2 => by
        have hieq : i = 1 := by omega
        rw [hieq]
        exact pyEq_refl _)
      (Or.inr (Or.inl rfl)) a b
    rw [show mergeRuns (c :: cs) = mergeRunsAux 1 c 2 cs from rfl, h]
    constructor
    · rintro ⟨hg, _⟩
      exact hg
    · intro hg
      exact ⟨hg, hg.1⟩

/-- C4: the vertical-merge pass merges `(a, b)` in a column if and only
if rows `a..b` form a maximal run of at least two cells all holding the
identical non-empty post-coercion value; in particular a column
`[A, A, A, B]` merges exactly rows 1–3, and `[A, "", A]` merges nothing
because the empty cell breaks the run. -/
theorem vertical_merge_characterization :
    (∀ (col : List Cell) (a b : Nat),
      (a, b) ∈ mergeRuns col ↔ goodRun col a b) ∧
    mergeRuns [.str ['A'], .str ['A'], .str ['A'], .str ['B']] = [(1, 3)] ∧
    mergeRuns [.str ['A'], .str [], .str ['A']] = [] :=
  ⟨mergeRuns_mem_iff, by decide, by decide⟩

end Tables
